import Mathlib

/-!
# relay.c: the command interpreter of the FT245RL relay utility

A shallow embedding of `src/relay.c` and the properties of its format codec
(`parse_chars`, `parse_bits`, `show_chars`, `show`), of its operation engine
(`do_input`) and of `main`: the sanity scan, the command pass, the write to the
device and the two stream loops.

Conventions of the embedding.

* A C `int` is a Lean `Int`.  The bitwise operators `|`, `&`, `~`, `^` on a
  two's complement `int` are `Int.lor`, `Int.land`, `Int.lnot`, `Int.xor`; they
  never leave the range of `int`.  A conversion `(int)x` of a `long` is
  `to_int x`, the wrap to 32 bits.
* A C string is the list of its characters before the terminating NUL, a
  `char` being a Lean `Char` (code below 256).  Plain `char` is signed (gcc on
  x86, the build line of the file header): `char_to_int`.
* Text written to standard output is returned as the list of characters
  written.
* `strtol` and `printf` are library code; they are modelled after the C
  standard, `long` having 64 bits.
* `getopt` and `wordexp` are library code too: the arguments of the program, and
  each line of the line stream, are given as the sequence of results that
  `getopt` delivers for them.
* The device is the byte read from its pins at the start, or absent, and the
  list of the bytes written to it.
-/

namespace Relay

/-! ## Data model -/

/-- The `enum format_type` of relay.c. -/
inductive format_type where
  | HEX
  | DEC
  | INT
  | ONE
  | RAW
  deriving DecidableEq, Repr

/-- The `enum operation_type` of relay.c. -/
inductive operation_type where
  | SET
  | CLOSE
  | OPEN
  | TOGGLE
  deriving DecidableEq, Repr

open format_type operation_type

/-- The global `char* int_order = "01234567"`. -/
def int_order : List Char := ['0', '1', '2', '3', '4', '5', '6', '7']

/-- The global `char* one_order = "12345678"`. -/
def one_order : List Char := ['1', '2', '3', '4', '5', '6', '7', '8']

/-! ## C library functions used by the codec -/

/-- The conversion `(int)x` of a `long` value: wrap to 32 bits, two's complement. -/
def to_int (x : Int) : Int := (x + 2 ^ 31) % 2 ^ 32 - 2 ^ 31

/-- The conversion `(uint8_t)x` of an `int`: the value modulo 256. -/
def to_uint8 (x : Int) : Int := x % 256

/-- The value of a (signed) `char` converted to `int`. -/
def char_to_int (c : Char) : Int :=
  if c.toNat % 256 < 128 then (c.toNat % 256 : Nat) else (c.toNat % 256 : Nat) - 256

/-- The largest `long`. -/
def LONG_MAX : Int := 2 ^ 63 - 1

/-- The smallest `long`. -/
def LONG_MIN : Int := -(2 ^ 63)

/-- The C locale's `isspace`: space, and `\t \n \v \f \r` (codes 9 to 13). -/
def isspace (c : Char) : Bool :=
  c.toNat = 32 || (9 ≤ c.toNat && c.toNat ≤ 13)

/-- The value of `c` as a digit (`0-9`, then letters of either case from 10), if it is one. -/
def digit_value (c : Char) : Option Nat :=
  if 48 ≤ c.toNat ∧ c.toNat ≤ 57 then some (c.toNat - 48)
  else if 97 ≤ c.toNat ∧ c.toNat ≤ 122 then some (c.toNat - 97 + 10)
  else if 65 ≤ c.toNat ∧ c.toNat ≤ 90 then some (c.toNat - 65 + 10)
  else none

/-- The digit loop of `strtol`: consume digits of the base as long as there are any,
accumulating the magnitude; stop at the first character that is not one. -/
def strtol_digits (base : Nat) : List Char → Nat → Nat
  | [], acc => acc
  | c :: cs, acc =>
    match digit_value c with
    | some d => if d < base then strtol_digits base cs (acc * base + d) else acc
    | none => acc

/-- The optional sign of `strtol`: whether it is `-`, and the rest of the text. -/
def strtol_sign : List Char → Bool × List Char
  | '-' :: t => (true, t)
  | '+' :: t => (false, t)
  | s => (false, s)

/-- The optional `0x` or `0X` that `strtol` accepts in base 16. -/
def strtol_0x (base : Nat) (s : List Char) : List Char :=
  if base = 16 then
    match s with
    | '0' :: x :: t => if x = 'x' ∨ x = 'X' then t else s
    | _ => s
  else s

/-- The C function `strtol(s, NULL, base)` for base 10 or 16: skip white space, take an
optional sign and (base 16) an optional `0x`, convert the longest run of digits; the
result is 0 when there is no digit, and is clamped to the range of `long`. -/
def strtol (s : List Char) (base : Nat) : Int :=
  let p := strtol_sign (s.dropWhile isspace)
  let mag : Int := (strtol_digits base (strtol_0x base p.2) 0 : Nat)
  if p.1 then max (-mag) LONG_MIN else min mag LONG_MAX

/-- The conversion `%02x` of `printf`: the `int` taken as `unsigned`, in lower-case
hexadecimal, padded with zeros to two digits. -/
def printf_02x (n : Int) : List Char :=
  let d := Nat.toDigits 16 (n % 2 ^ 32).toNat
  List.replicate (2 - d.length) '0' ++ d

/-- The conversion `%i` of `printf`: signed decimal. -/
def printf_i (n : Int) : List Char :=
  if n < 0 then '-' :: Nat.toDigits 10 n.natAbs else Nat.toDigits 10 n.toNat

/-- The conversion `%c` of `printf`: the single byte `(unsigned char)n`. -/
def printf_c (n : Int) : List Char := [Char.ofNat (n % 256).toNat]

/-! ## FormatCodec: `parse_chars`, `parse_bits`, `show_chars`, `show` -/

/-- The loop of `parse_chars`, from index `i` on, over the rest of `order`:
`if (strchr(s, order[i]) == NULL) continue; b += (1<<i);`. -/
def parse_chars_loop (s : List Char) : List Char → Nat → Int → Int
  | [], _, b => b
  | o :: rest, i, b =>
    if o ∈ s then parse_chars_loop s rest (i + 1) (b + 2 ^ i)
    else parse_chars_loop s rest (i + 1) b

/-- The function `parse_chars(order, s)`: "list" of integers to byte. -/
def parse_chars (order s : List Char) : Int := parse_chars_loop s order 0 0

/-- The function `parse_bits(f, s)`. -/
def parse_bits (f : format_type) (s : List Char) : Int :=
  match f with
  | HEX => to_int (strtol s 16)
  | DEC => to_int (strtol s 10)
  | INT => parse_chars int_order s
  | ONE => parse_chars one_order s
  | RAW => char_to_int (s.headD (Char.ofNat 0))

/-- The loop of `show_chars`, from index `i` on:
`if (n & (1<<i)) printf("%c", order[i]);`. -/
def show_chars_loop (n : Int) : List Char → Nat → List Char
  | [], _ => []
  | o :: rest, i =>
    if Int.land n (2 ^ i) ≠ 0 then o :: show_chars_loop n rest (i + 1)
    else show_chars_loop n rest (i + 1)

/-- The function `show_chars(order, n)`: the characters it prints. -/
def show_chars (order : List Char) (n : Int) : List Char :=
  show_chars_loop n order 0 ++ ['\n']

/-- The function `show(f, n)`: the characters it prints. -/
def show_out (f : format_type) (n : Int) : List Char :=
  match f with
  | HEX => ['0', 'x'] ++ printf_02x n ++ ['\n']
  | DEC => printf_i n ++ ['\n']
  | INT => show_chars int_order n
  | ONE => show_chars one_order n
  | RAW => printf_c n

/-! ## OperationEngine: `do_input` -/

/-- The function `do_input(state, op, f, s)`: the new value of `state`. -/
def do_input (state : Int) (op : operation_type) (f : format_type) (s : List Char) : Int :=
  let pins := parse_bits f s
  match op with
  | CLOSE => Int.lor state pins
  | OPEN => Int.land state (Int.lnot pins)
  | SET => pins
  | TOGGLE => Int.xor state pins

/-! ## CommandParser: `switch_format`, `switch_operation` and the command pass of `main` -/

/-- The function `switch_format(f, arg)`. -/
def switch_format (f : format_type) (arg : Char) : format_type :=
  match arg with
  | 'X' => HEX
  | 'D' => DEC
  | 'I' => INT
  | '1' => ONE
  | 'R' => RAW
  | _ => f

/-- The function `switch_operation(op, arg)`. -/
def switch_operation (op : operation_type) (arg : Char) : operation_type :=
  match arg with
  | 'c' => CLOSE
  | 'o' => OPEN
  | 's' => SET
  | 't' => TOGGLE
  | _ => op

/-- One result of `getopt`: the option character `opt` and the text `optarg` (read only
after the options `c`, `o`, `s`, `t`, which take an argument). -/
structure parsed_flag where
  opt : Char
  optarg : List Char
  deriving DecidableEq, Repr

/-- The variables of `main` that the command loop reads and writes, with the text
written to standard output so far. -/
structure context where
  state : Int
  format : format_type
  operation : operation_type
  out : List Char
  deriving DecidableEq, Repr

/-- The body of the command loop of `main` (pass 2), for one result of `getopt`. -/
def command_step (x : context) (fl : parsed_flag) : context :=
  let format := switch_format x.format fl.opt
  let operation := switch_operation x.operation fl.opt
  match fl.opt with
  | 'c' | 'o' | 's' | 't' =>
    { state := do_input x.state operation format fl.optarg, format := format,
      operation := operation, out := x.out }
  | 'r' =>
    { state := x.state, format := format, operation := operation,
      out := x.out ++ show_out format x.state }
  | _ => { state := x.state, format := format, operation := operation, out := x.out }

/-- The command loop of `main`: `while ((opt = getopt(...)) != -1) { ... }`, over the
sequence of results that `getopt` delivers. -/
def command_loop : context → List parsed_flag → context
  | x, [] => x
  | x, fl :: rest => command_loop (command_step x fl) rest

/-- Pass 2 of `main` up to the end of the command loop: `format = HEX;`, `state` is the
byte `c` read from the pins, `operation` still has its initial value `SET`. -/
def command_pass (c : Int) (flags : List parsed_flag) : context :=
  command_loop { state := c, format := HEX, operation := SET, out := [] } flags

/-! ## The specification of the command pass, in the words of the spec -/

/-- Spec: the format that a format-select flag names. -/
def spec_flag_format : Char → Option format_type
  | 'X' => some HEX
  | 'D' => some DEC
  | 'I' => some INT
  | '1' => some ONE
  | 'R' => some RAW
  | _ => none

/-- Spec: the operation that an operand flag names. -/
def spec_flag_operation : Char → Option operation_type
  | 'c' => some CLOSE
  | 'o' => some OPEN
  | 's' => some SET
  | 't' => some TOGGLE
  | _ => none

/-- Spec: the active format after the flags `before`: the one named by the most recent
format-select flag among them, HEX if there is none. -/
def spec_active_format (before : List parsed_flag) : format_type :=
  ((before.reverse.filterMap fun fl => spec_flag_format fl.opt).head?).getD HEX

/-- Spec: the effect of one flag on the pair (state, text printed), the flags `before`
having been processed: an operand flag replaces the state by `do_input` with the
operation of that flag and the active format; `-r` prints the state in the active
format; any other flag leaves the pair alone. -/
def spec_flag_effect (before : List parsed_flag) (acc : Int × List Char) (fl : parsed_flag) :
    Int × List Char :=
  match spec_flag_operation fl.opt with
  | some op => (do_input acc.1 op (spec_active_format before) fl.optarg, acc.2)
  | none =>
    if fl.opt = 'r' then (acc.1, acc.2 ++ show_out (spec_active_format before) acc.1)
    else acc

/-- Spec: the left fold of `spec_flag_effect` over the flags, strictly left to right. -/
def spec_fold : List parsed_flag → Int × List Char → List parsed_flag → Int × List Char
  | _, acc, [] => acc
  | before, acc, fl :: rest => spec_fold (before ++ [fl]) (spec_flag_effect before acc fl) rest

/-- A flag without argument, as `getopt` delivers it. -/
def flag (opt : Char) : parsed_flag := { opt := opt, optarg := [] }

/-- A flag with its argument, as `getopt` delivers it. -/
def flag_arg (opt : Char) (optarg : List Char) : parsed_flag := { opt := opt, optarg := optarg }

/-! ## The specification of the codec, in the words of the spec -/

/-- Spec: the ordered digit string of the formats INT and ONE. -/
def spec_digit_string : format_type → List Char
  | INT => ['0', '1', '2', '3', '4', '5', '6', '7']
  | ONE => ['1', '2', '3', '4', '5', '6', '7', '8']
  | _ => []

/-- Spec: `c` is a digit of the base. -/
def spec_is_digit (base : Nat) (c : Char) : Bool :=
  match digit_value c with
  | some d => decide (d < base)
  | none => false

/-- Spec: the text is in its entirety a numeral of the base: one digit or more, and
nothing but digits of the base. -/
def spec_numeral (base : Nat) (s : List Char) : Bool :=
  !s.isEmpty && s.all (spec_is_digit base)

/-- Spec: the text has no leading numeral: after the white space and the sign that
`strtol` skips, it is at its end or at a character that is not a digit of the base. -/
def spec_no_leading_digit (base : Nat) (s : List Char) : Bool :=
  match (strtol_sign (s.dropWhile isspace)).2 with
  | [] => true
  | c :: _ => !spec_is_digit base c

/-- The loop of `parse_chars` over the answers of the `strchr` tests alone. -/
def parse_tests_loop : List Bool → Nat → Int → Int
  | [], _, b => b
  | m :: rest, i, b =>
    if m then parse_tests_loop rest (i + 1) (b + 2 ^ i)
    else parse_tests_loop rest (i + 1) b

/-! ## `main`: sanity scan, command pass, hardware write and the two stream loops -/

/-- The `enum input_type` of relay.c. -/
inductive input_type where
  | ARGS
  | CHAR
  | LINE
  deriving DecidableEq, Repr

open input_type

/-- The text that `help()` prints. -/
def help_text : List Char :=
  String.toList (String.join [
    "relay - basic usb relay control utility\n",
    "    made for the Sainsmart 8 channel board\n",
    "    but should work on anything with a FT245RL\n",
    "\nbit-wise commands:\n",
    "    multiple commands can be used in the same call\n",
    "    -c XX (close)\n",
    "    -o XX (open)\n",
    "    -s XX (set all) given bits are closed, non-given are opened\n",
    "    -t XX (toggle)\n",
    "    -r (read) outputs pin values to stdout\n",
    "\nformat options:\n",
    "    in decreasing order of leetness\n",
    "    -R (raw) raw binary byte IO\n",
    "    -X (hex) hex byte IO (default)\n",
    "    -D (decimal) decimal byte IO\n",
    "    -I (integer) 0-7 character IO\n",
    "    -1 (one-indexed) 1-8 character IO\n",
    "\nstreaming options:\n",
    "    monitors stdin for fewer calls and less overhead\n",
    "    format cannot be changed after entering a stream\n",
    "    -C (character stream) works with RI1 formats\n",
    "    -L (line stream) works with XDI1 formats\n",
    "\nmisc:\n",
    "    -h (help) this text\n",
    "\nbugs:\n",
    "    no error handling or warnings!\n",
    "    confused by multiple boards\n",
    "    character streaming might be non-portable\n",
    "\n"])

/-- The variables that pass 1 of `main` (the sanity check) writes. -/
structure scan_context where
  format : format_type
  input : input_type
  r : Int
  deriving DecidableEq, Repr

/-- The body of the loop of pass 1, for one result of `getopt`: the next values of the
variables, or the status that `main` returns at once after `help()` (`-h`: 0; an option
that `getopt` does not know, the `default` case: 1).  The value of the `parse_bits`
call of the cases `c`, `o`, `s`, `t` is dropped; they fall through to `r = 0`. -/
def sanity_step (x : scan_context) (fl : parsed_flag) : Except Int scan_context :=
  match fl.opt with
  | 'X' => .ok { x with format := HEX }
  | 'D' => .ok { x with format := DEC }
  | 'I' => .ok { x with format := INT }
  | '1' => .ok { x with format := ONE }
  | 'R' => .ok { x with format := RAW }
  | 'C' => .ok { x with input := CHAR, r := 0 }
  | 'L' => .ok { x with input := LINE, r := 0 }
  | 'c' | 'o' | 's' | 't' => .ok { x with r := 0 }
  | 'r' => .ok { x with r := 0 }
  | 'h' => .error 0
  | _ => .error 1

/-- The loop of pass 1 over the results of `getopt`. -/
def sanity_loop : scan_context → List parsed_flag → Except Int scan_context
  | x, [] => .ok x
  | x, fl :: rest =>
    match sanity_step x fl with
    | .ok y => sanity_loop y rest
    | .error status => .error status

/-- Pass 1 of `main` with the test `if (r) { help(); return 1; }` after it: the status
of an early return (always after `help()`), or the input type chosen. -/
def sanity_pass (flags : List parsed_flag) : Except Int input_type :=
  match sanity_loop { format := HEX, input := ARGS, r := 1 } flags with
  | .error status => .error status
  | .ok x => if x.r ≠ 0 then .error 1 else .ok x.input

/-- The variables of `main` with the bytes written to the device by `ftdi_write_data`,
in order. -/
structure machine where
  ctx : context
  writes : List Int
  deriving DecidableEq, Repr

/-- The statements `c = (uint8_t)state; ftdi_write_data(&ftdic, &c, 1);`. -/
def write_state (m : machine) : machine :=
  { ctx := m.ctx, writes := m.writes ++ [to_uint8 m.ctx.state] }

/-- The statement `c = getchar();` with `uint8_t c`, on the bytes left on standard input:
the byte read, or 255 for `EOF` (-1) when none is left; and the bytes left after it. -/
def getchar_uint8 : List Nat → Nat × List Nat
  | [] => (255, [])
  | b :: rest => (b % 256, rest)

/-- The string `mini_string` after `mini_string[0] = c;`: the one character `c`, or the
empty string when `c` is NUL. -/
def mini_string (c : Nat) : List Char :=
  if c = 0 then [] else [Char.ofNat c]

/-- The test `strchr("costr", c) != NULL`: `strchr` finds the five letters and also the
terminating NUL of the string. -/
def strchr_costr (c : Nat) : Bool :=
  c = 0 || ['c', 'o', 's', 't', 'r'].contains (Char.ofNat c)

/-- The body of the char stream loop of `main`, after `c = getchar();`. -/
def char_step (m : machine) (c : Nat) : machine :=
  if m.ctx.format = RAW ∨ strchr_costr c = false then
    let state := do_input m.ctx.state m.ctx.operation m.ctx.format (mini_string c)
    { ctx := { state := state, format := m.ctx.format, operation := m.ctx.operation,
               out := m.ctx.out },
      writes := m.writes ++ [to_uint8 state] }
  else
    let operation := switch_operation m.ctx.operation (Char.ofNat c)
    { ctx := { state := m.ctx.state, format := m.ctx.format, operation := operation,
               out := if Char.ofNat c = 'r' then m.ctx.out ++ show_out m.ctx.format m.ctx.state
                      else m.ctx.out },
      writes := m.writes }

/-- The char stream loop `while (input == CHAR) { c = getchar(); ... }` run for at most
`fuel` iterations: `some` machine when the loop is left, `none` when it is still
running.  The body has no `break` and does not assign `input`. -/
def char_stream_loop (input : input_type) : Nat → List Nat → machine → Option machine
  | 0, _, _ => none
  | fuel + 1, chars, m =>
    if input = CHAR then
      char_stream_loop input fuel (getchar_uint8 chars).2 (char_step m (getchar_uint8 chars).1)
    else some m

/-- The machine after `n` iterations of the char stream loop. -/
def char_stream_iterate : Nat → List Nat → machine → machine
  | 0, _, m => m
  | n + 1, chars, m =>
    char_stream_iterate n (getchar_uint8 chars).2 (char_step m (getchar_uint8 chars).1)

/-- The `getopt` loop of the line stream loop of `main` ("exact same code as normal arg
handling"), over the results of `getopt` for the words of one line. -/
def line_command_loop : context → List parsed_flag → context
  | x, [] => x
  | x, fl :: rest =>
    let format := switch_format x.format fl.opt
    let operation := switch_operation x.operation fl.opt
    match fl.opt with
    | 'c' | 'o' | 's' | 't' =>
      line_command_loop
        { state := do_input x.state operation format fl.optarg, format := format,
          operation := operation, out := x.out } rest
    | 'r' =>
      line_command_loop
        { state := x.state, format := format, operation := operation,
          out := x.out ++ show_out format x.state } rest
    | _ =>
      line_command_loop
        { state := x.state, format := format, operation := operation, out := x.out } rest

/-- The first iteration of the line stream loop, after its `getline` has read a line
into a fresh buffer (`line_str1` is `NULL` before it): for a line on which `wordexp`
fails (`none`), `continue` with nothing done; for a line that `wordexp` splits into
words, given as the results of `getopt` on them, the `getopt` loop and then one write
of the state.  In both cases `free(line_str1)` has been executed and `line_str1` still
holds the freed address. -/
def first_line_step (m : machine) : Option (List parsed_flag) → machine
  | none => m
  | some flags => write_state { ctx := line_command_loop m.ctx flags, writes := m.writes }

/-- How a run of the line stream loop ends: the loop is left by `break` with the machine
`m`, or the behaviour of the program is undefined from the machine `m` on. -/
inductive line_stream_end where
  | left (m : machine)
  | undefined (m : machine)
  deriving DecidableEq, Repr

/-- The line stream loop of `main` over the lines on standard input.  With no line, the
first `getline` returns -1 and the loop is left.  After the first iteration the second
`getline` is called with the freed `line_str1` and the old `line_len`: at end of input
it returns -1 before it uses the buffer and the loop is left; with a second line it
reads into the freed buffer, which `free(line_str1)` then frees again, and `getopt`,
restarted by `optind = 1` only, still holds its scan position in the words that
`wordfree` released: the behaviour is undefined. -/
def line_stream_loop (m : machine) : List (Option (List parsed_flag)) → line_stream_end
  | [] => .left m
  | [line] => .left (first_line_step m line)
  | line :: _ :: _ => .undefined (first_line_step m line)

/-- What a run of `main` that returns leaves: the exit status, the text on standard
output and the bytes written to the device. -/
structure run_result where
  status : Int
  out : List Char
  writes : List Int
  deriving DecidableEq, Repr

/-- The outcome of a run of `main`: it returns, or its behaviour is undefined after the
text `out` was printed and the bytes `writes` were written. -/
inductive run_outcome where
  | returned (r : run_result)
  | undefined (out : List Char) (writes : List Int)
  deriving DecidableEq, Repr

/-- The function `main`, on the results of `getopt` for `argv`, the device (`none` when
`ftdi_usb_open` fails, else the byte that `ftdi_read_pins` reads) and standard input
(its bytes for the char stream, its lines for the line stream); `none` when `main` has
not returned within `fuel` iterations of the char stream loop. -/
def main (flags : List parsed_flag) (device : Option Int) (fuel : Nat) (chars : List Nat)
    (lines : List (Option (List parsed_flag))) : Option run_outcome :=
  match sanity_pass flags with
  | .error status => some (.returned { status := status, out := help_text, writes := [] })
  | .ok input =>
    match device with
    | none => some (.returned { status := 1, out := [], writes := [] })
    | some c =>
      let m1 := write_state { ctx := command_pass c flags, writes := [] }
      match (if input = CHAR then char_stream_loop input fuel chars m1 else some m1) with
      | none => none
      | some m2 =>
        if input = LINE then
          match line_stream_loop m2 lines with
          | .left m3 => some (.returned { status := 0, out := m3.ctx.out, writes := m3.writes })
          | .undefined m3 => some (.undefined m3.ctx.out m3.writes)
        else some (.returned { status := 0, out := m2.ctx.out, writes := m2.writes })

/-! ## The specification of rendering and of the byte operations, in the words of the spec -/

/-- Spec: the lower-case hexadecimal digit of a value below 16: `0` to `9`, then `a` to
`f`. -/
def spec_hex_digit (d : Nat) : Char :=
  if d < 10 then Char.ofNat ('0'.toNat + d) else Char.ofNat ('a'.toNat + (d - 10))

/-- Spec: the decimal digits of a byte, without leading zeros. -/
def spec_decimal (b : Nat) : List Char :=
  if b < 10 then [spec_hex_digit b]
  else if b < 100 then [spec_hex_digit (b / 10), spec_hex_digit (b % 10)]
  else [spec_hex_digit (b / 100), spec_hex_digit (b / 10 % 10), spec_hex_digit (b % 10)]

/-- Spec: the characters of `order` at the indices of the bits set in `b`, in ascending
bit order, with no separator. -/
def spec_set_bit_chars (order : List Char) (b : Nat) : List Char :=
  ((List.range 8).filter fun i => b.testBit i).map fun i => order.getD i '?'

/-- Spec: the 8-bit operation of the table of operations, on two bytes. -/
def spec_byte_op (op : operation_type) (state pins : Nat) : Nat :=
  match op with
  | CLOSE => state ||| pins
  | OPEN => state &&& (255 - pins)
  | SET => pins
  | TOGGLE => state ^^^ pins

/-! ## Helper lemmas -/

/-- An `int` in [0,255] is the cast of a natural number below 256. -/
theorem byte_cases (b : Int) (h0 : 0 ≤ b) (h1 : b ≤ 255) : ∃ n : Fin 256, b = (n.val : Int) := by
  obtain ⟨n, rfl⟩ := Int.eq_ofNat_of_zero_le h0
  exact ⟨⟨n, by omega⟩, rfl⟩

set_option maxRecDepth 1000000 in
theorem roundtrip_hex_fin : ∀ n : Fin 256, parse_bits HEX (show_out HEX (n.val : Int)) = n.val := by
  decide

set_option maxRecDepth 1000000 in
theorem roundtrip_dec_fin : ∀ n : Fin 256, parse_bits DEC (show_out DEC (n.val : Int)) = n.val := by
  decide

set_option maxRecDepth 1000000 in
theorem roundtrip_int_fin : ∀ n : Fin 256, parse_bits INT (show_out INT (n.val : Int)) = n.val := by
  decide

set_option maxRecDepth 1000000 in
theorem roundtrip_one_fin : ∀ n : Fin 256, parse_bits ONE (show_out ONE (n.val : Int)) = n.val := by
  decide

/-- Two masks with a non-zero conjunction have a common set bit. -/
theorem exists_common_bit (p q : Nat) (h : p &&& q ≠ 0) :
    ∃ i, p.testBit i = true ∧ q.testBit i = true := by
  by_contra hne
  push_neg at hne
  apply h
  apply Nat.eq_of_testBit_eq
  intro i
  rw [Nat.testBit_and, Nat.zero_testBit]
  cases hp : p.testBit i
  · rfl
  · simpa using hne i hp

/-! ## FormatCodec and OperationEngine: the claims -/

/-- C1. Round trip: for every byte `b` in [0,255] and every format `f` among HEX, DEC,
INT and ONE, `parse_bits` applied to exactly the text that `show` prints for `b`
(its trailing newline included) gives `b` back. -/
theorem parse_bits_show_roundtrip (f : format_type) (b : Int)
    (hf : f ≠ RAW) (h0 : 0 ≤ b) (h1 : b ≤ 255) :
    parse_bits f (show_out f b) = b := by
  obtain ⟨n, rfl⟩ := byte_cases b h0 h1
  cases f with
  | HEX => exact roundtrip_hex_fin n
  | DEC => exact roundtrip_dec_fin n
  | INT => exact roundtrip_int_fin n
  | ONE => exact roundtrip_one_fin n
  | RAW => exact absurd rfl hf

/-- Witness of C1: the byte 0xa5 in format HEX, printed as `0xa5` and a newline. -/
theorem parse_bits_show_roundtrip_witness :
    HEX ≠ RAW ∧ (0 : Int) ≤ 165 ∧ (165 : Int) ≤ 255 ∧
      show_out HEX 165 = ['0', 'x', 'a', '5', '\n'] ∧
      parse_bits HEX (show_out HEX 165) = 165 :=
  ⟨by decide, by decide, by decide, by decide,
    parse_bits_show_roundtrip HEX 165 (by decide) (by decide) (by decide)⟩

/-- C2. CLOSE: for a state in [0,255] and an operand text whose mask `pins` is in
[0,255], `do_input` with CLOSE returns `state OR pins`: the bitwise or of the two
bytes, in which each bit 0..7 is 1 where the bit of `pins` is 1 and is the bit of
`state` elsewhere. -/
theorem do_input_close (state : Int) (f : format_type) (s : List Char)
    (hs0 : 0 ≤ state) (hs1 : state ≤ 255)
    (hp0 : 0 ≤ parse_bits f s) (hp1 : parse_bits f s ≤ 255) :
    do_input state CLOSE f s = Int.lor state (parse_bits f s) ∧
    do_input state CLOSE f s = ((state.toNat ||| (parse_bits f s).toNat : Nat) : Int) ∧
    ∀ i, i < 8 →
      ((parse_bits f s).testBit i = true → (do_input state CLOSE f s).testBit i = true) ∧
      ((parse_bits f s).testBit i = false →
        (do_input state CLOSE f s).testBit i = state.testBit i) := by
  have hd : do_input state CLOSE f s = Int.lor state (parse_bits f s) := rfl
  refine ⟨hd, ?_, ?_⟩
  · rw [hd]
    generalize parse_bits f s = pins at hp0 hp1 ⊢
    obtain ⟨n, rfl⟩ := Int.eq_ofNat_of_zero_le hs0
    obtain ⟨m, rfl⟩ := Int.eq_ofNat_of_zero_le hp0
    rfl
  · intro i _
    rw [hd, Int.testBit_lor]
    constructor
    · intro h
      rw [h, Bool.or_true]
    · intro h
      rw [h, Bool.or_false]

/-- Witness of C2: state 0x05, format HEX, operand text `0a`. -/
theorem do_input_close_witness :
    (0 : Int) ≤ 5 ∧ parse_bits HEX ['0', 'a'] = 10 ∧
      do_input 5 CLOSE HEX ['0', 'a'] = ((5 ||| 10 : Nat) : Int) :=
  ⟨by decide, by decide,
    (do_input_close 5 HEX ['0', 'a'] (by decide) (by decide) (by decide) (by decide)).2.1⟩

/-- C3. OPEN: for a state in [0,255] and an operand text whose mask `pins` is in
[0,255], `do_input` with OPEN returns `state AND NOT pins`: each bit 0..7 is 0 where
the bit of `pins` is 1 and is the bit of `state` elsewhere, and the result is again in
[0,255]. -/
theorem do_input_open (state : Int) (f : format_type) (s : List Char)
    (hs0 : 0 ≤ state) (hs1 : state ≤ 255)
    (hp0 : 0 ≤ parse_bits f s) (hp1 : parse_bits f s ≤ 255) :
    do_input state OPEN f s = Int.land state (Int.lnot (parse_bits f s)) ∧
    (∀ i, i < 8 →
      ((parse_bits f s).testBit i = true → (do_input state OPEN f s).testBit i = false) ∧
      ((parse_bits f s).testBit i = false →
        (do_input state OPEN f s).testBit i = state.testBit i)) ∧
    0 ≤ do_input state OPEN f s ∧ do_input state OPEN f s ≤ 255 := by
  have hd : do_input state OPEN f s = Int.land state (Int.lnot (parse_bits f s)) := rfl
  refine ⟨hd, ?_, ?_⟩
  · intro i _
    rw [hd, Int.testBit_land, Int.testBit_lnot]
    constructor
    · intro h
      rw [h, Bool.not_true, Bool.and_false]
    · intro h
      rw [h, Bool.not_false, Bool.and_true]
  · rw [hd]
    generalize parse_bits f s = pins at hp0 hp1 ⊢
    obtain ⟨n, rfl⟩ := Int.eq_ofNat_of_zero_le hs0
    obtain ⟨m, rfl⟩ := Int.eq_ofNat_of_zero_le hp0
    have hn : n < 2 ^ 8 := by omega
    have hm : m < 2 ^ 8 := by omega
    have hlt : Nat.ldiff n m < 2 ^ 8 := Nat.bitwise_lt_two_pow hn hm
    have he : Int.land (n : Int) (Int.lnot (m : Int)) = ((Nat.ldiff n m : Nat) : Int) := rfl
    rw [he]
    omega

/-- Witness of C3: state 0x0f, format DEC, operand text `5`. -/
theorem do_input_open_witness :
    (0 : Int) ≤ 15 ∧ parse_bits DEC ['5'] = 5 ∧
      do_input 15 OPEN DEC ['5'] = Int.land 15 (Int.lnot (parse_bits DEC ['5'])) ∧
      0 ≤ do_input 15 OPEN DEC ['5'] ∧ do_input 15 OPEN DEC ['5'] ≤ 255 :=
  have h := do_input_open 15 DEC ['5'] (by decide) (by decide) (by decide) (by decide)
  ⟨by decide, by decide, h.1, h.2.2⟩

/-- C4. TOGGLE: for a state in [0,255] and an operand text whose mask `pins` is in
[0,255], `do_input` with TOGGLE returns `state XOR pins`: each bit set in `pins` is
inverted, every other bit is unchanged, and the same TOGGLE applied twice restores
the state. -/
theorem do_input_toggle (state : Int) (f : format_type) (s : List Char)
    (hs0 : 0 ≤ state) (hs1 : state ≤ 255)
    (hp0 : 0 ≤ parse_bits f s) (hp1 : parse_bits f s ≤ 255) :
    do_input state TOGGLE f s = Int.xor state (parse_bits f s) ∧
    do_input state TOGGLE f s = ((state.toNat ^^^ (parse_bits f s).toNat : Nat) : Int) ∧
    (∀ i,
      ((parse_bits f s).testBit i = true →
        (do_input state TOGGLE f s).testBit i = !state.testBit i) ∧
      ((parse_bits f s).testBit i = false →
        (do_input state TOGGLE f s).testBit i = state.testBit i)) ∧
    do_input (do_input state TOGGLE f s) TOGGLE f s = state := by
  have hd : ∀ st, do_input st TOGGLE f s = Int.xor st (parse_bits f s) := fun _ => rfl
  refine ⟨hd state, ?_, ?_, ?_⟩
  · rw [hd]
    generalize parse_bits f s = pins at hp0 hp1 ⊢
    obtain ⟨n, rfl⟩ := Int.eq_ofNat_of_zero_le hs0
    obtain ⟨m, rfl⟩ := Int.eq_ofNat_of_zero_le hp0
    rfl
  · intro i
    rw [hd, Int.testBit_lxor]
    constructor
    · intro h
      rw [h, Bool.xor_true]
    · intro h
      rw [h, Bool.xor_false]
  · rw [hd, hd]
    generalize parse_bits f s = pins at hp0 hp1 ⊢
    obtain ⟨n, rfl⟩ := Int.eq_ofNat_of_zero_le hs0
    obtain ⟨m, rfl⟩ := Int.eq_ofNat_of_zero_le hp0
    have he : Int.xor (Int.xor (n : Int) (m : Int)) (m : Int) = ((n ^^^ m ^^^ m : Nat) : Int) := rfl
    rw [he, Nat.xor_assoc, Nat.xor_self, Nat.xor_zero]

/-- Witness of C4: state 0x06, format INT, operand text `12` (bits 1 and 2). -/
theorem do_input_toggle_witness :
    (0 : Int) ≤ 6 ∧ parse_bits INT ['1', '2'] = 6 ∧
      do_input 6 TOGGLE INT ['1', '2'] = ((6 ^^^ 6 : Nat) : Int) ∧
      do_input (do_input 6 TOGGLE INT ['1', '2']) TOGGLE INT ['1', '2'] = 6 :=
  have h := do_input_toggle 6 INT ['1', '2'] (by decide) (by decide) (by decide) (by decide)
  ⟨by decide, by decide, h.2.1, h.2.2.2⟩

/-- C5. SET: for every prior state, format and operand text, `do_input` with SET
returns the operand mask `parse_bits f s`; the result is the same from any two prior
states, and every bit of the result is the bit of the mask, so a bit absent from the
mask is 0 (open) whatever it was in the prior state. -/
theorem do_input_set (state : Int) (f : format_type) (s : List Char) :
    do_input state SET f s = parse_bits f s ∧
    (∀ other : Int, do_input other SET f s = do_input state SET f s) ∧
    ∀ i, (do_input state SET f s).testBit i = (parse_bits f s).testBit i :=
  ⟨rfl, fun _ => rfl, fun _ => rfl⟩

/-- The function `switch_format` keeps the format unless the flag names one. -/
theorem switch_format_eq (f : format_type) (c : Char) :
    switch_format f c = (spec_flag_format c).getD f := by
  unfold switch_format spec_flag_format
  split <;> rfl

/-- The active format of the spec moves with each flag as `switch_format` does. -/
theorem spec_active_format_snoc (before : List parsed_flag) (fl : parsed_flag) :
    spec_active_format (before ++ [fl]) = switch_format (spec_active_format before) fl.opt := by
  rw [switch_format_eq]
  unfold spec_active_format
  rw [List.reverse_append, List.reverse_singleton, List.singleton_append, List.filterMap_cons]
  cases h : spec_flag_format fl.opt <;> rfl

/-- One step of the command loop against one step of the spec's fold. -/
theorem command_step_spec (before : List parsed_flag) (x : context) (fl : parsed_flag)
    (hf : x.format = spec_active_format before) :
    (command_step x fl).format = spec_active_format (before ++ [fl]) ∧
    ((command_step x fl).state, (command_step x fl).out)
      = spec_flag_effect before (x.state, x.out) fl := by
  rw [spec_active_format_snoc, ← hf]
  obtain ⟨opt, arg⟩ := fl
  obtain ⟨st, fmt, op, out⟩ := x
  simp only at hf
  subst hf
  simp only [command_step, spec_flag_effect, spec_flag_operation, switch_operation]
  split
  · constructor <;> rfl
  · constructor <;> rfl
  · constructor <;> rfl
  · constructor <;> rfl
  · constructor <;> rfl
  · refine ⟨rfl, ?_⟩
    split
    · simp_all
    · simp_all
    · simp_all
    · simp_all
    · simp_all

/-- The command loop against the spec's fold, from any position of the sequence. -/
theorem command_loop_spec (flags : List parsed_flag) :
    ∀ (before : List parsed_flag) (x : context), x.format = spec_active_format before →
      ((command_loop x flags).state, (command_loop x flags).out)
        = spec_fold before (x.state, x.out) flags := by
  induction flags with
  | nil => intro before x _; rfl
  | cons fl rest ih =>
    intro before x hf
    have h := command_step_spec before x fl hf
    have h2 := ih (before ++ [fl]) (command_step x fl) h.1
    rw [h.2] at h2
    exact h2

/-! ## CommandParser and the remaining codec claims -/

/-- C6. Left-to-right interpretation with carried context: for every initial state and
every sequence of parsed flags, the state and the text printed by the command pass of
`main` are those of the left fold in which an operand flag replaces the state by
`do_input` with the operation of that flag and the format of the most recent preceding
format flag (HEX if none), and `-r` prints the state of that position in the format
active there.  From state 0x00, `-I -c 01` gives 0x03, then `-I -t 0` gives 0x02, and
a following `-X -r` prints `0x02`. -/
theorem command_pass_left_fold :
    (∀ (c : Int) (flags : List parsed_flag),
      ((command_pass c flags).state, (command_pass c flags).out)
        = spec_fold [] (c, []) flags) ∧
    (command_pass 0 [flag 'I', flag_arg 'c' ['0', '1']]).state = 3 ∧
    (command_pass 0
      [flag 'I', flag_arg 'c' ['0', '1'], flag 'I', flag_arg 't' ['0']]).state = 2 ∧
    (command_pass 0
      [flag 'I', flag_arg 'c' ['0', '1'], flag 'I', flag_arg 't' ['0'],
        flag 'X', flag 'r']).state = 2 ∧
    (command_pass 0
      [flag 'I', flag_arg 'c' ['0', '1'], flag 'I', flag_arg 't' ['0'],
        flag 'X', flag 'r']).out = ['0', 'x', '0', '2', '\n'] := by
  refine ⟨fun c flags => command_loop_spec flags [] _ rfl, ?_, ?_, ?_, ?_⟩ <;> decide

/-- C7. Order sensitivity: for a state in [0,255] and operand masks `p`, `q` in [0,255]
that overlap (`p AND q` is not zero), CLOSE `p` then TOGGLE `q` gives another state
than TOGGLE `q` then CLOSE `p`. -/
theorem close_toggle_order_sensitive (state : Int) (f g : format_type) (s t : List Char)
    (hs0 : 0 ≤ state) (_hs1 : state ≤ 255)
    (hp0 : 0 ≤ parse_bits f s) (_hp1 : parse_bits f s ≤ 255)
    (hq0 : 0 ≤ parse_bits g t) (_hq1 : parse_bits g t ≤ 255)
    (hov : Int.land (parse_bits f s) (parse_bits g t) ≠ 0) :
    do_input (do_input state CLOSE f s) TOGGLE g t
      ≠ do_input (do_input state TOGGLE g t) CLOSE f s := by
  have h1 : do_input (do_input state CLOSE f s) TOGGLE g t
      = Int.xor (Int.lor state (parse_bits f s)) (parse_bits g t) := rfl
  have h2 : do_input (do_input state TOGGLE g t) CLOSE f s
      = Int.lor (Int.xor state (parse_bits g t)) (parse_bits f s) := rfl
  rw [h1, h2]
  generalize parse_bits f s = p at hp0 hov ⊢
  generalize parse_bits g t = q at hq0 hov ⊢
  obtain ⟨n, rfl⟩ := Int.eq_ofNat_of_zero_le hs0
  obtain ⟨p, rfl⟩ := Int.eq_ofNat_of_zero_le hp0
  obtain ⟨q, rfl⟩ := Int.eq_ofNat_of_zero_le hq0
  have hnat : p &&& q ≠ 0 := by
    intro h0
    apply hov
    have he : Int.land (p : Int) (q : Int) = ((p &&& q : Nat) : Int) := rfl
    rw [he, h0]
    rfl
  obtain ⟨i, hpi, hqi⟩ := exists_common_bit p q hnat
  have hpi2 : (p : Int).testBit i = true := hpi
  have hqi2 : (q : Int).testBit i = true := hqi
  intro heq
  have hb := congrArg (fun z => Int.testBit z i) heq
  simp only [Int.testBit_lxor, Int.testBit_lor, hpi2, hqi2] at hb
  simp at hb

/-- Witness of C7: state 0x00 and the overlapping masks 0x03 and 0x01. -/
theorem close_toggle_order_sensitive_witness :
    parse_bits HEX ['3'] = 3 ∧ parse_bits HEX ['1'] = 1 ∧
      Int.land (parse_bits HEX ['3']) (parse_bits HEX ['1']) ≠ 0 ∧
      do_input (do_input 0 CLOSE HEX ['3']) TOGGLE HEX ['1']
        ≠ do_input (do_input 0 TOGGLE HEX ['1']) CLOSE HEX ['3'] :=
  ⟨by decide, by decide, by decide,
    close_toggle_order_sensitive 0 HEX HEX ['3'] ['1'] (by decide) (by decide) (by decide)
      (by decide) (by decide) (by decide) (by decide)⟩

/-- C8, at the failing input. The range invariant does not hold of the code: the HEX
operand text `100` decodes to 256 and the DEC operand text `-1` to -1, so from the
state 0x00, which is in [0,255], `do_input` with SET or CLOSE and the operand `100`
returns 256, outside [0,255]. -/
theorem range_invariant_fails_at_hex_100 :
    parse_bits HEX ['1', '0', '0'] = 256 ∧
    parse_bits DEC ['-', '1'] = -1 ∧
    do_input 0 SET HEX ['1', '0', '0'] = 256 ∧
    do_input 0 CLOSE HEX ['1', '0', '0'] = 256 ∧
    ¬ (∀ (state : Int) (op : operation_type) (f : format_type) (s : List Char),
        0 ≤ state → state ≤ 255 →
          (0 ≤ parse_bits f s ∧ parse_bits f s ≤ 255) ∧
          (0 ≤ do_input state op f s ∧ do_input state op f s ≤ 255)) := by
  refine ⟨by decide, by decide, by decide, by decide, ?_⟩
  intro h
  have h1 := (h 0 SET HEX ['1', '0', '0'] (by decide) (by decide)).1.2
  revert h1
  decide

/-- The loop of `parse_chars` depends on the text through the `strchr` tests only. -/
theorem parse_chars_loop_tests (s order : List Char) :
    ∀ (i : Nat) (b : Int),
      parse_chars_loop s order i b
        = parse_tests_loop (order.map fun o => decide (o ∈ s)) i b := by
  induction order with
  | nil => intro i b; rfl
  | cons o rest ih =>
    intro i b
    simp only [parse_chars_loop, List.map_cons, parse_tests_loop, decide_eq_true_eq]
    split <;> exact ih _ _

/-- Two texts with the same characters of `order` decode alike. -/
theorem parse_chars_congr (order s t : List Char) (h : ∀ c ∈ order, (c ∈ s ↔ c ∈ t)) :
    parse_chars order s = parse_chars order t := by
  unfold parse_chars
  rw [parse_chars_loop_tests, parse_chars_loop_tests]
  congr 1
  apply List.map_congr_left
  intro c hc
  simp only [h c hc]

/-- Eight tests give the byte whose bit `i` is the answer of test `i`. -/
theorem parse_tests_loop_bits :
    ∀ b0 b1 b2 b3 b4 b5 b6 b7 : Bool, ∀ i : Fin 8,
      (parse_tests_loop [b0, b1, b2, b3, b4, b5, b6, b7] 0 0).testBit i.val
        = [b0, b1, b2, b3, b4, b5, b6, b7].get ⟨i.val, i.isLt⟩ := by
  decide

/-- Eight tests give a value in [0,255]. -/
theorem parse_tests_loop_range :
    ∀ b0 b1 b2 b3 b4 b5 b6 b7 : Bool,
      0 ≤ parse_tests_loop [b0, b1, b2, b3, b4, b5, b6, b7] 0 0 ∧
      parse_tests_loop [b0, b1, b2, b3, b4, b5, b6, b7] 0 0 ≤ 255 := by
  decide

/-- With an `order` of eight characters, bit `i` of `parse_chars` is the `strchr` test
of the character at index `i`. -/
theorem parse_chars_eight_bits (c0 c1 c2 c3 c4 c5 c6 c7 : Char) (s : List Char)
    (i : Nat) (c : Char) (h : [c0, c1, c2, c3, c4, c5, c6, c7][i]? = some c) :
    (parse_chars [c0, c1, c2, c3, c4, c5, c6, c7] s).testBit i = decide (c ∈ s) := by
  have hi : i < 8 := by
    by_contra hge
    rw [List.getElem?_eq_none (by simpa using hge)] at h
    exact Option.noConfusion h
  have hb := parse_tests_loop_bits (decide (c0 ∈ s)) (decide (c1 ∈ s)) (decide (c2 ∈ s))
    (decide (c3 ∈ s)) (decide (c4 ∈ s)) (decide (c5 ∈ s)) (decide (c6 ∈ s))
    (decide (c7 ∈ s)) ⟨i, hi⟩
  unfold parse_chars
  rw [parse_chars_loop_tests]
  simp only [List.map_cons, List.map_nil]
  rw [hb]
  interval_cases i <;> simp only [List.getElem?_cons_zero, List.getElem?_cons_succ,
    Option.some.injEq] at h <;> subst h <;> rfl

/-- With an `order` of eight characters, `parse_chars` is in [0,255]. -/
theorem parse_chars_eight_range (c0 c1 c2 c3 c4 c5 c6 c7 : Char) (s : List Char) :
    0 ≤ parse_chars [c0, c1, c2, c3, c4, c5, c6, c7] s ∧
    parse_chars [c0, c1, c2, c3, c4, c5, c6, c7] s ≤ 255 := by
  unfold parse_chars
  rw [parse_chars_loop_tests]
  exact parse_tests_loop_range _ _ _ _ _ _ _ _

/-- For INT and ONE, `parse_bits` is `parse_chars` with the digit string of the spec. -/
theorem parse_bits_digit_string (f : format_type) (hf : f = INT ∨ f = ONE) (s : List Char) :
    parse_bits f s = parse_chars (spec_digit_string f) s := by
  rcases hf with rfl | rfl <;> rfl

/-- C9. INT/ONE decode is a set membership test: for INT (digit string `01234567`) and
ONE (digit string `12345678`) and every text `s`, bit `i` (0..7) of `parse_bits f s` is
1 exactly when the character at index `i` of the digit string occurs in `s`, and no
other bit is set; so the result is the same for a permutation of `s`, for `s` with a
character repeated, and for `s` with a character inserted that is not in the digit
string. -/
theorem parse_bits_membership (f : format_type) (hf : f = INT ∨ f = ONE) (s : List Char) :
    (∀ (i : Nat) (c : Char), (spec_digit_string f)[i]? = some c →
      ((parse_bits f s).testBit i = true ↔ c ∈ s)) ∧
    (0 ≤ parse_bits f s ∧ parse_bits f s ≤ 255) ∧
    (∀ t : List Char, s.Perm t → parse_bits f t = parse_bits f s) ∧
    (∀ (a b : List Char) (c : Char), s = a ++ c :: b →
      parse_bits f (a ++ c :: c :: b) = parse_bits f s) ∧
    (∀ (a b : List Char) (c : Char), s = a ++ b → c ∉ spec_digit_string f →
      parse_bits f (a ++ c :: b) = parse_bits f s) := by
  refine ⟨?_, ?_, ?_, ?_, ?_⟩
  · intro i c hic
    rw [parse_bits_digit_string f hf]
    rcases hf with rfl | rfl
    · have hb := parse_chars_eight_bits _ _ _ _ _ _ _ _ s i c hic
      rw [show spec_digit_string INT = ['0', '1', '2', '3', '4', '5', '6', '7'] from rfl, hb,
        decide_eq_true_eq]
    · have hb := parse_chars_eight_bits _ _ _ _ _ _ _ _ s i c hic
      rw [show spec_digit_string ONE = ['1', '2', '3', '4', '5', '6', '7', '8'] from rfl, hb,
        decide_eq_true_eq]
  · rw [parse_bits_digit_string f hf]
    rcases hf with rfl | rfl
    · exact parse_chars_eight_range _ _ _ _ _ _ _ _ s
    · exact parse_chars_eight_range _ _ _ _ _ _ _ _ s
  · intro t hp
    rw [parse_bits_digit_string f hf, parse_bits_digit_string f hf]
    exact parse_chars_congr _ _ _ fun c _ => (hp.mem_iff).symm
  · intro a b c hs
    rw [parse_bits_digit_string f hf, parse_bits_digit_string f hf, hs]
    apply parse_chars_congr
    intro d _
    simp only [List.mem_append, List.mem_cons]
    tauto
  · intro a b c hs hc
    rw [parse_bits_digit_string f hf, parse_bits_digit_string f hf, hs]
    apply parse_chars_congr
    intro d hd
    have hne : d ≠ c := fun h => hc (h ▸ hd)
    simp only [List.mem_append, List.mem_cons]
    tauto

/-- Witness of C9: format ONE and the text `31`, which decodes to 0x05 (bits 0 and 2). -/
theorem parse_bits_membership_witness :
    parse_bits ONE ['3', '1'] = 5 ∧
      ((parse_bits ONE ['3', '1']).testBit 2 = true ↔ '3' ∈ ['3', '1']) ∧
      parse_bits ONE ['1', '3'] = parse_bits ONE ['3', '1'] ∧
      parse_bits ONE ['3', '3', '1'] = parse_bits ONE ['3', '1'] ∧
      parse_bits ONE ['3', 'z', '1'] = parse_bits ONE ['3', '1'] :=
  have h := parse_bits_membership ONE (Or.inr rfl) ['3', '1']
  ⟨by decide, h.1 2 '3' rfl, h.2.2.1 ['1', '3'] (List.Perm.swap '1' '3' []),
    h.2.2.2.1 [] ['1'] '3' rfl, h.2.2.2.2 ['3'] ['1'] 'z' rfl (by decide)⟩

/-- Without a leading digit the digit loop of `strtol` converts nothing. -/
theorem strtol_digits_no_digit (base : Nat) (hb : 0 < base) (s : List Char)
    (h : (match s with
      | [] => true
      | c :: _ => !spec_is_digit base c) = true) :
    strtol_digits base (strtol_0x base s) 0 = 0 := by
  cases s with
  | nil =>
    unfold strtol_0x
    split <;> rfl
  | cons c t =>
    simp only [Bool.not_eq_true'] at h
    have h0x : strtol_0x base (c :: t) = c :: t := by
      unfold strtol_0x
      split
      · split
        · rename_i heq
          injection heq with hc _
          subst hc
          have hd : spec_is_digit base '0' = true := by
            simp only [spec_is_digit, show digit_value '0' = some 0 from by decide,
              decide_eq_true_eq]
            exact hb
          rw [hd] at h
          exact absurd h (by decide)
        · rfl
      · rfl
    rw [h0x]
    unfold strtol_digits
    unfold spec_is_digit at h
    cases hd : digit_value c with
    | none => rfl
    | some d =>
      rw [hd] at h
      simp only [decide_eq_false_iff_not] at h
      simp only [h, if_false]

/-- Without a leading numeral `strtol` returns 0. -/
theorem strtol_no_leading_digit (base : Nat) (hb : 0 < base) (s : List Char)
    (h : spec_no_leading_digit base s = true) : strtol s base = 0 := by
  unfold strtol
  simp only [strtol_digits_no_digit base hb _ h]
  split <;> decide

/-- C10, as stated, fails: the text `1g` is not in its entirety a numeral of base 16 or
of base 10, and `parse_bits` decodes it to 1 in HEX and in DEC, not to 0. -/
theorem parse_bits_malformed_not_zero :
    spec_numeral 16 ['1', 'g'] = false ∧ spec_numeral 10 ['1', 'g'] = false ∧
    parse_bits HEX ['1', 'g'] = 1 ∧ parse_bits DEC ['1', 'g'] = 1 ∧
    ¬ (∀ (f : format_type) (base : Nat) (s : List Char),
        (f = HEX ∧ base = 16) ∨ (f = DEC ∧ base = 10) →
          spec_numeral base s = false → parse_bits f s = 0) := by
  refine ⟨by decide, by decide, by decide, by decide, ?_⟩
  intro h
  have h1 := h HEX 16 ['1', 'g'] (Or.inl ⟨rfl, rfl⟩) (by decide)
  revert h1
  decide

/-- C10, amended. Permissive decode: for HEX (base 16) and DEC (base 10) and every
operand text without a leading numeral, that is, whose first character after the
white space and the sign that `strtol` skips is not a digit of the base, or is
missing, `parse_bits` returns 0; it returns a plain value, there is no error result. -/
theorem parse_bits_no_leading_digit (f : format_type) (base : Nat) (s : List Char)
    (hf : (f = HEX ∧ base = 16) ∨ (f = DEC ∧ base = 10))
    (h : spec_no_leading_digit base s = true) :
    parse_bits f s = 0 := by
  rcases hf with ⟨rfl, rfl⟩ | ⟨rfl, rfl⟩
  · unfold parse_bits
    simp only [strtol_no_leading_digit 16 (by decide) s h]
    decide
  · unfold parse_bits
    simp only [strtol_no_leading_digit 10 (by decide) s h]
    decide

/-- Witness of C10 amended: the HEX operand text `zz`. -/
theorem parse_bits_no_leading_digit_witness :
    spec_no_leading_digit 16 ['z', 'z'] = true ∧ spec_numeral 16 ['z', 'z'] = false ∧
      parse_bits HEX ['z', 'z'] = 0 :=
  ⟨by decide, by decide,
    parse_bits_no_leading_digit HEX 16 ['z', 'z'] (Or.inl ⟨rfl, rfl⟩) (by decide)⟩

/-! ## Rendering and RAW -/

set_option maxRecDepth 1000000 in
/-- The four renderings of every byte, by enumeration. -/
theorem rendering_fin : ∀ n : Fin 256,
    show_out HEX (n.val : Int)
      = ['0', 'x', spec_hex_digit (n.val / 16), spec_hex_digit (n.val % 16), '\n'] ∧
    show_out DEC (n.val : Int) = spec_decimal n.val ++ ['\n'] ∧
    show_out INT (n.val : Int) = spec_set_bit_chars (spec_digit_string INT) n.val ++ ['\n'] ∧
    show_out ONE (n.val : Int) = spec_set_bit_chars (spec_digit_string ONE) n.val ++ ['\n'] := by
  decide

/-- C11. Rendering: for every byte `b` in [0,255], `show` in HEX prints `0x`, the two
lower-case hexadecimal digits of `b` and a newline; in DEC the decimal digits of `b`
and a newline; in INT and ONE the characters of the digit string at the bits set in
`b`, in ascending bit order without separator, and a newline (for `b = 0` just the
newline). -/
theorem show_rendering (b : Int) (h0 : 0 ≤ b) (h1 : b ≤ 255) :
    show_out HEX b
      = ['0', 'x', spec_hex_digit (b.toNat / 16), spec_hex_digit (b.toNat % 16), '\n'] ∧
    show_out DEC b = spec_decimal b.toNat ++ ['\n'] ∧
    show_out INT b = spec_set_bit_chars (spec_digit_string INT) b.toNat ++ ['\n'] ∧
    show_out ONE b = spec_set_bit_chars (spec_digit_string ONE) b.toNat ++ ['\n'] ∧
    show_out INT 0 = ['\n'] ∧ show_out ONE 0 = ['\n'] := by
  obtain ⟨n, rfl⟩ := byte_cases b h0 h1
  have h := rendering_fin n
  simp only [Int.toNat_ofNat]
  exact ⟨h.1, h.2.1, h.2.2.1, h.2.2.2, by decide, by decide⟩

/-- Witness of C11: the byte 0xa5 = 165, bits 0, 2, 5 and 7. -/
theorem show_rendering_witness :
    show_out HEX 165 = ['0', 'x', 'a', '5', '\n'] ∧
      show_out DEC 165 = ['1', '6', '5', '\n'] ∧
      show_out INT 165 = ['0', '2', '5', '7', '\n'] ∧
      show_out ONE 165 = ['1', '3', '6', '8', '\n'] :=
  have h := show_rendering 165 (by decide) (by decide)
  ⟨h.1.trans (by decide), h.2.1.trans (by decide), h.2.2.1.trans (by decide),
    h.2.2.2.1.trans (by decide)⟩

/-- C12, at the failing input. RAW is not byte identity in the code for the bytes 0x80
to 0xff: `parse_bits` returns `(int)(s[0])` of a plain, signed, `char`, so a text whose
first byte is 0xc1 = 193 decodes to -63 and SET leaves the state -63, which `show` in
HEX prints as `0xffffffc1`; only modulo 256 is the state the byte.  For the bytes
below 0x80 the claim holds, so for 0x41: SET yields 0x41 from every state, and `show`
in RAW emits the single byte of every `b` in [0,255] with no newline. -/
theorem raw_byte_identity_fails_at_0xc1 :
    parse_bits RAW [Char.ofNat 0xc1] = -63 ∧
    do_input 0 SET RAW [Char.ofNat 0xc1] = -63 ∧
    show_out HEX (do_input 0 SET RAW [Char.ofNat 0xc1])
      = ['0', 'x', 'f', 'f', 'f', 'f', 'f', 'f', 'c', '1', '\n'] ∧
    to_uint8 (parse_bits RAW [Char.ofNat 0xc1]) = 0xc1 ∧
    (∀ (c : Char) (t : List Char), c.toNat < 128 → parse_bits RAW (c :: t) = (c.toNat : Int)) ∧
    (∀ (c : Char) (t : List Char), c.toNat < 256 →
      to_uint8 (parse_bits RAW (c :: t)) = (c.toNat : Int)) ∧
    (∀ state : Int, do_input state SET RAW [Char.ofNat 0x41] = 0x41) ∧
    (∀ b : Nat, b < 256 → show_out RAW (b : Int) = [Char.ofNat b]) ∧
    show_out RAW 0x41 = ['A'] := by
  refine ⟨by decide, by decide, by decide, by decide, ?_, ?_, fun _ => ?_, ?_, by decide⟩
  · intro c t hc
    simp only [parse_bits, List.headD_cons, char_to_int]
    rw [Nat.mod_eq_of_lt (by omega), if_pos hc]
  · intro c t hc
    simp only [parse_bits, List.headD_cons, char_to_int, to_uint8]
    rw [Nat.mod_eq_of_lt hc]
    split <;> omega
  · have h : parse_bits RAW [Char.ofNat 0x41] = 0x41 := by decide
    exact h
  · intro b hb
    simp only [show_out, printf_c]
    have : ((b : Int) % 256).toNat = b := by omega
    rw [this]

/-! ## The sanity scan and the hardware write of `main` -/

/-- One step of pass 1 on a flag that is neither an operand, read, stream nor help flag:
a return with status 1, or `r` is left as it was. -/
theorem sanity_step_no_action (x : scan_context) (fl : parsed_flag)
    (hfl : fl.opt ∉ ['c', 'o', 's', 't', 'r', 'h', 'C', 'L']) :
    sanity_step x fl = .error 1 ∨ ∃ y, sanity_step x fl = .ok y ∧ y.r = x.r := by
  obtain ⟨opt, arg⟩ := fl
  simp only [List.mem_cons, List.mem_singleton, List.not_mem_nil, or_false, not_or] at hfl
  unfold sanity_step
  split <;> first
    | exact Or.inr ⟨_, rfl, rfl⟩
    | exact Or.inl rfl
    | simp_all

/-- Pass 1 over flags that are neither operand, read, stream nor help flags: it returns
at once with status 1, or comes to its end with `r` still not zero. -/
theorem sanity_loop_no_action (flags : List parsed_flag) :
    ∀ x : scan_context, x.r ≠ 0 →
      (∀ fl ∈ flags, fl.opt ∉ ['c', 'o', 's', 't', 'r', 'h', 'C', 'L']) →
      sanity_loop x flags = .error 1 ∨ ∃ y, sanity_loop x flags = .ok y ∧ y.r ≠ 0 := by
  induction flags with
  | nil => intro x hx _; exact Or.inr ⟨x, rfl, hx⟩
  | cons fl rest ih =>
    intro x hx hk
    have hrest : ∀ g ∈ rest, g.opt ∉ ['c', 'o', 's', 't', 'r', 'h', 'C', 'L'] :=
      fun g hg => hk g (List.mem_cons_of_mem _ hg)
    unfold sanity_loop
    rcases sanity_step_no_action x fl (hk fl (List.mem_cons_self _ _)) with h | ⟨y, h, hy⟩
    · rw [h]
      exact Or.inl rfl
    · rw [h]
      exact ih y (hy ▸ hx) hrest

/-- Pass 1 over flags without action ends in the usage error. -/
theorem sanity_pass_no_action (flags : List parsed_flag)
    (hk : ∀ fl ∈ flags, fl.opt ∉ ['c', 'o', 's', 't', 'r', 'h', 'C', 'L']) :
    sanity_pass flags = .error 1 := by
  unfold sanity_pass
  have h1 : ({ format := HEX, input := ARGS, r := 1 } : scan_context).r ≠ 0 := by decide
  rcases sanity_loop_no_action flags _ h1 hk with h | ⟨y, h, hy⟩
  · rw [h]
  · rw [h]
    simp only [hy, ne_eq, not_false_eq_true, if_true]

/-- One step of pass 1 on a format, operand or read flag: no return, the input type is
kept, and `r` becomes 0 on an operand or read flag. -/
theorem sanity_step_command (x : scan_context) (fl : parsed_flag)
    (hfl : fl.opt ∈ ['X', 'D', 'I', '1', 'R', 'r', 'c', 'o', 's', 't']) :
    ∃ y, sanity_step x fl = .ok y ∧ y.input = x.input ∧
      y.r = if fl.opt ∈ ['c', 'o', 's', 't', 'r'] then 0 else x.r := by
  obtain ⟨opt, arg⟩ := fl
  simp only [List.mem_cons, List.mem_singleton, List.not_mem_nil, or_false] at hfl
  rcases hfl with rfl | rfl | rfl | rfl | rfl | rfl | rfl | rfl | rfl | rfl <;>
    exact ⟨_, rfl, rfl, rfl⟩

/-- Pass 1 over format, operand and read flags: it comes to its end with the input type
kept, and with `r` zero when an operand or read flag occurs. -/
theorem sanity_loop_command (flags : List parsed_flag) :
    ∀ x : scan_context,
      (∀ fl ∈ flags, fl.opt ∈ ['X', 'D', 'I', '1', 'R', 'r', 'c', 'o', 's', 't']) →
      ∃ y, sanity_loop x flags = .ok y ∧ y.input = x.input ∧
        ((∃ fl ∈ flags, fl.opt ∈ ['c', 'o', 's', 't', 'r']) ∨ x.r = 0 → y.r = 0) := by
  induction flags with
  | nil =>
    intro x _
    refine ⟨x, rfl, rfl, ?_⟩
    rintro (⟨fl, hfl, _⟩ | h)
    · exact absurd hfl (List.not_mem_nil _)
    · exact h
  | cons fl rest ih =>
    intro x hk
    have hrest : ∀ g ∈ rest, g.opt ∈ ['X', 'D', 'I', '1', 'R', 'r', 'c', 'o', 's', 't'] :=
      fun g hg => hk g (List.mem_cons_of_mem _ hg)
    obtain ⟨y, hy, hin, hr⟩ := sanity_step_command x fl (hk fl (List.mem_cons_self _ _))
    obtain ⟨z, hz, hzin, hzr⟩ := ih y hrest
    unfold sanity_loop
    rw [hy]
    refine ⟨z, hz, hzin.trans hin, ?_⟩
    rintro (⟨g, hg, hgo⟩ | h0)
    · rcases List.mem_cons.mp hg with rfl | hg2
      · apply hzr
        right
        rw [hr, if_pos hgo]
      · exact hzr (Or.inl ⟨g, hg2, hgo⟩)
    · apply hzr
      right
      rw [hr, h0]
      split <;> rfl

/-- C13, as stated, fails: the flag sequence `-L` holds no operand, read or help flag,
yet `main` does not print the usage text: with a device whose pins read 0x00 and empty
standard input it writes the byte 0x00 to the device and returns 0. -/
theorem usage_error_not_for_stream_flag :
    main [flag 'L'] (some 0) 0 [] []
      = some (.returned { status := 0, out := [], writes := [0] }) ∧
    ¬ (∀ (flags : List parsed_flag) (device : Option Int) (fuel : Nat) (chars : List Nat)
        (lines : List (Option (List parsed_flag))),
        (∀ fl ∈ flags, fl.opt ∉ ['c', 'o', 's', 't', 'r', 'h']) →
          main flags device fuel chars lines
            = some (.returned { status := 1, out := help_text, writes := [] })) := by
  have h0 : main [flag 'L'] (some 0) 0 [] []
      = some (.returned { status := 0, out := [], writes := [0] }) := by decide
  refine ⟨h0, ?_⟩
  intro h
  have h1 := h [flag 'L'] (some 0) 0 [] [] (by decide)
  rw [h0] at h1
  have h2 : (0 : Int) = 1 :=
    congrArg run_result.status (run_outcome.returned.inj (Option.some.inj h1))
  revert h2
  decide

/-- C13, amended. Usage error: for every top-level flag sequence that contains no
operand flag (`-c`, `-o`, `-s`, `-t`), no read flag (`-r`), no stream flag (`-C`, `-L`) and no help
flag, `main` prints the usage text, returns status 1 and writes nothing to the
device, whatever the device and standard input; so for the empty sequence. -/
theorem usage_error_without_action (flags : List parsed_flag) (device : Option Int)
    (fuel : Nat) (chars : List Nat) (lines : List (Option (List parsed_flag)))
    (hk : ∀ fl ∈ flags, fl.opt ∉ ['c', 'o', 's', 't', 'r', 'h', 'C', 'L']) :
    main flags device fuel chars lines
      = some (.returned { status := 1, out := help_text, writes := [] }) := by
  unfold main
  rw [sanity_pass_no_action flags hk]

/-- Witness of C13 amended: the empty flag sequence, and the sequence `-I -X`. -/
theorem usage_error_without_action_witness :
    main [] (some 0) 0 [] []
        = some (.returned { status := 1, out := help_text, writes := [] }) ∧
      main [flag 'I', flag 'X'] (some 0) 0 [] []
        = some (.returned { status := 1, out := help_text, writes := [] }) :=
  ⟨usage_error_without_action [] (some 0) 0 [] [] (by decide),
    usage_error_without_action [flag 'I', flag 'X'] (some 0) 0 [] [] (by decide)⟩

/-- C14. Single write per invocation: for every top-level invocation whose flags are
format, operand and read flags only (no stream flag, nothing that fails the sanity
scan), with an operand flag among them, and whose device is opened with pins `c`,
`main` returns 0 having written to the device exactly once, the byte of the final
state of the command pass, which is that state itself when it is in [0,255]. -/
theorem main_single_write (flags : List parsed_flag) (c : Int) (fuel : Nat)
    (chars : List Nat) (lines : List (Option (List parsed_flag)))
    (hk : ∀ fl ∈ flags, fl.opt ∈ ['X', 'D', 'I', '1', 'R', 'r', 'c', 'o', 's', 't'])
    (hop : ∃ fl ∈ flags, fl.opt ∈ ['c', 'o', 's', 't']) :
    main flags (some c) fuel chars lines
      = some (.returned { status := 0, out := (command_pass c flags).out,
                          writes := [to_uint8 (command_pass c flags).state] }) ∧
    (0 ≤ (command_pass c flags).state → (command_pass c flags).state ≤ 255 →
      main flags (some c) fuel chars lines
        = some (.returned { status := 0, out := (command_pass c flags).out,
                            writes := [(command_pass c flags).state] })) := by
  have hmain : main flags (some c) fuel chars lines
      = some (.returned { status := 0, out := (command_pass c flags).out,
                          writes := [to_uint8 (command_pass c flags).state] }) := by
    obtain ⟨y, hy, hin, hr⟩ := sanity_loop_command flags
      { format := HEX, input := ARGS, r := 1 } hk
    obtain ⟨fl, hfl, hflo⟩ := hop
    have hr0 : y.r = 0 := by
      apply hr
      left
      refine ⟨fl, hfl, ?_⟩
      simp only [List.mem_cons, List.mem_singleton, List.not_mem_nil, or_false] at hflo ⊢
      tauto
    have hs : sanity_pass flags = .ok ARGS := by
      unfold sanity_pass
      rw [hy]
      simp only [hr0, ne_eq, not_true_eq_false, if_false]
      rw [hin]
    unfold main
    rw [hs]
    rfl
  refine ⟨hmain, fun h0 h1 => ?_⟩
  rw [hmain]
  have hb : to_uint8 (command_pass c flags).state = (command_pass c flags).state := by
    unfold to_uint8
    omega
  rw [hb]

/-- Witness of C14: `-I -c 01 -t 0 -r` from the pins 0x00: two operand flags, one write,
of the final state 0x02 and not of the intermediate 0x03. -/
theorem main_single_write_witness :
    main [flag 'I', flag_arg 'c' ['0', '1'], flag_arg 't' ['0'], flag 'r'] (some 0) 0 [] []
      = some (.returned { status := 0, out := ['1', '\n'], writes := [2] }) :=
  (main_single_write [flag 'I', flag_arg 'c' ['0', '1'], flag_arg 't' ['0'], flag 'r'] 0 0 [] []
    (by decide) (by decide)).1.trans (by decide)

/-! ## The char stream -/

set_option maxRecDepth 1000000 in
/-- The test `strchr("costr", c) != NULL` on every byte: it holds of NUL and of the five
letters only. -/
theorem strchr_costr_fin : ∀ c : Fin 256,
    strchr_costr c.val = decide (c.val ∈ [0, 'c'.toNat, 'o'.toNat, 's'.toNat, 't'.toNat,
      'r'.toNat]) := by
  decide

/-- C15. Character-stream classification: for every state and active operation, when
the active format is not RAW the input characters `c`, `o`, `s`, `t` set the active
operation to CLOSE, OPEN, SET, TOGGLE and `r` prints the state in the active format,
the state being kept and nothing written to the device; when the active format is
RAW every input byte, the five letters included, is applied as a one-character
operand with the active operation and the new state is written to the device, the
active operation being kept. -/
theorem char_step_classification (m : machine) :
    (m.ctx.format ≠ RAW →
      char_step m 'c'.toNat
        = { ctx := { m.ctx with operation := CLOSE }, writes := m.writes } ∧
      char_step m 'o'.toNat
        = { ctx := { m.ctx with operation := OPEN }, writes := m.writes } ∧
      char_step m 's'.toNat
        = { ctx := { m.ctx with operation := SET }, writes := m.writes } ∧
      char_step m 't'.toNat
        = { ctx := { m.ctx with operation := TOGGLE }, writes := m.writes } ∧
      char_step m 'r'.toNat
        = { ctx := { m.ctx with out := m.ctx.out ++ show_out m.ctx.format m.ctx.state },
            writes := m.writes }) ∧
    (m.ctx.format = RAW → ∀ c : Nat, c < 256 →
      char_step m c
        = { ctx := { m.ctx with
                     state := do_input m.ctx.state m.ctx.operation RAW (mini_string c) },
            writes := m.writes
              ++ [to_uint8 (do_input m.ctx.state m.ctx.operation RAW (mini_string c))] }) := by
  constructor
  · intro hf
    have hc : ∀ c : Nat, strchr_costr c = true →
        char_step m c
          = { ctx := { state := m.ctx.state, format := m.ctx.format,
                       operation := switch_operation m.ctx.operation (Char.ofNat c),
                       out := if Char.ofNat c = 'r'
                         then m.ctx.out ++ show_out m.ctx.format m.ctx.state
                         else m.ctx.out },
              writes := m.writes } := by
      intro c h
      unfold char_step
      rw [if_neg]
      rw [h]
      simp only [hf, false_or]
      decide
    refine ⟨?_, ?_, ?_, ?_, ?_⟩
    · rw [hc _ (by decide)]; rfl
    · rw [hc _ (by decide)]; rfl
    · rw [hc _ (by decide)]; rfl
    · rw [hc _ (by decide)]; rfl
    · rw [hc _ (by decide)]; rfl
  · intro hf c _
    unfold char_step
    rw [if_pos (Or.inl hf)]
    simp only [hf]

/-- Witness of C15: format INT, state 0x05, operation SET; and format RAW with the
letter `c`, which is then the operand 0x63. -/
theorem char_step_classification_witness :
    char_step { ctx := { state := 5, format := INT, operation := SET, out := [] },
                writes := [] } 't'.toNat
      = { ctx := { state := 5, format := INT, operation := TOGGLE, out := [] },
          writes := [] } ∧
    char_step { ctx := { state := 5, format := RAW, operation := SET, out := [] },
                writes := [] } 'c'.toNat
      = { ctx := { state := 0x63, format := RAW, operation := SET, out := [] },
          writes := [0x63] } :=
  ⟨((char_step_classification
      { ctx := { state := 5, format := INT, operation := SET, out := [] },
        writes := [] }).1 (by decide)).2.2.2.1,
    ((char_step_classification
      { ctx := { state := 5, format := RAW, operation := SET, out := [] },
        writes := [] }).2 rfl 'c'.toNat (by decide)).trans (by decide)⟩

/-- C16, at the failing input. In a format that is not RAW the byte NUL is not one of
the five letters, yet the step does not treat it as an operand: `strchr("costr", 0)`
finds the terminating NUL, so from state 0x05 with HEX and SET the step keeps 0x05
and writes nothing, where `do_input` on the one-character text gives 0x00.  Every
other byte that is not one of the five letters is an operand, written at once; so
with INT and TOGGLE the character `3` flips bit 3 only and writes once. -/
theorem char_step_operand_fails_at_nul :
    char_step { ctx := { state := 5, format := HEX, operation := SET, out := [] },
                writes := [] } 0
      = { ctx := { state := 5, format := HEX, operation := SET, out := [] }, writes := [] } ∧
    do_input 5 SET HEX (mini_string 0) = 0 ∧
    (∀ (m : machine) (c : Nat), m.ctx.format ≠ RAW → c < 256 → c ≠ 0 →
      c ∉ ['c'.toNat, 'o'.toNat, 's'.toNat, 't'.toNat, 'r'.toNat] →
      char_step m c
        = { ctx := { m.ctx with
                     state := do_input m.ctx.state m.ctx.operation m.ctx.format
                       (mini_string c) },
            writes := m.writes
              ++ [to_uint8 (do_input m.ctx.state m.ctx.operation m.ctx.format
                (mini_string c))] }) ∧
    (∀ (state : Int) (out : List Char) (writes : List Int),
      char_step { ctx := { state := state, format := INT, operation := TOGGLE, out := out },
                  writes := writes } '3'.toNat
        = { ctx := { state := Int.xor state 8, format := INT, operation := TOGGLE,
                     out := out },
            writes := writes ++ [to_uint8 (Int.xor state 8)] }) := by
  refine ⟨by decide, by decide, ?_, ?_⟩
  · intro m c _ hc h0 hl
    have hs : strchr_costr c = false := by
      have h := strchr_costr_fin ⟨c, hc⟩
      simp only [List.mem_cons, List.mem_singleton, List.not_mem_nil, or_false, not_or] at hl
      simp only [h, List.mem_cons, List.mem_singleton, List.not_mem_nil, or_false,
        decide_eq_false_iff_not, not_or]
      exact ⟨h0, hl⟩
    unfold char_step
    rw [if_pos (Or.inr hs)]
  · intro state out writes
    have hp : parse_bits INT (mini_string '3'.toNat) = 8 := by decide
    unfold char_step
    rw [if_pos (Or.inr (by decide))]
    simp only [do_input, hp]

/-! ## The line stream -/

/-- The `getopt` loop of the line stream is the command loop of the top-level flags. -/
theorem line_command_loop_eq (flags : List parsed_flag) :
    ∀ x : context, line_command_loop x flags = command_loop x flags := by
  induction flags with
  | nil => intro x; rfl
  | cons fl rest ih =>
    intro x
    unfold line_command_loop command_loop command_step
    split <;> exact ih _

set_option maxRecDepth 1000000 in
/-- Closing all eight bits of a byte gives 0xff. -/
theorem lor_255_fin : ∀ n : Fin 256, Int.lor (n.val : Int) 255 = 255 := by
  decide

/-- The command loop over two sequences of flags, one after the other. -/
theorem command_loop_append (xs ys : List parsed_flag) :
    ∀ x : context, command_loop (command_loop x xs) ys = command_loop x (xs ++ ys) := by
  induction xs with
  | nil => intro x; rfl
  | cons fl rest ih => intro x; exact ih _

/-- The run of `main` in the line stream on one line that splits into words: the flags
of the line continue the command pass of the top-level flags, and the state is
written after the pass and after the line. -/
theorem main_first_line (top flags : List parsed_flag) (c : Int) (fuel : Nat)
    (chars : List Nat) (hs : sanity_pass top = .ok LINE) :
    main top (some c) fuel chars [some flags]
      = some (.returned
          { status := 0, out := (command_pass c (top ++ flags)).out,
            writes := [to_uint8 (command_pass c top).state,
                       to_uint8 (command_pass c (top ++ flags)).state] }) := by
  have hl : line_command_loop (command_pass c top) flags = command_pass c (top ++ flags) := by
    rw [line_command_loop_eq]
    exact command_loop_append top flags _
  have hne : ¬ (LINE = CHAR) := by decide
  unfold main
  rw [hs]
  simp only [line_stream_loop, first_line_step, write_state, if_neg hne, if_true, hl,
    List.nil_append]
  rfl

/-- C17, at the failing input. The line stream step holds of the first line only.  On
one line that splits into words `main` does what the claim says: the flags of the
line continue the left fold of the top-level flags from the carried state, format and
operation, and one byte, that of the resulting state, is written after the line; with
HEX active the line `-c FF` yields 0xff from every state in [0,255], written once.  But
`free(line_str1)` leaves `line_str1` dangling and `optind = 1` leaves the scan position
of `getopt` in released words, so with a second line (`relay -L`, pins 0x00, the lines
`-D` and `-s 10`) the behaviour is undefined once the first line is done: the second
line is not interpreted and its write of 10 is not issued. -/
theorem line_stream_undefined_after_first_line :
    main [flag 'L'] (some 0) 0 [] [some [flag 'D'], some [flag_arg 's' ['1', '0']]]
      = some (.undefined [] [0, 0]) ∧
    (∀ (m : machine) (l1 l2 : Option (List parsed_flag))
        (rest : List (Option (List parsed_flag))),
      line_stream_loop m (l1 :: l2 :: rest) = .undefined (first_line_step m l1)) ∧
    (∀ (top flags : List parsed_flag) (c : Int) (fuel : Nat) (chars : List Nat),
      sanity_pass top = .ok LINE →
      main top (some c) fuel chars [some flags]
        = some (.returned
            { status := 0, out := (command_pass c (top ++ flags)).out,
              writes := [to_uint8 (command_pass c top).state,
                         to_uint8 (command_pass c (top ++ flags)).state] }) ∧
      ((command_pass c (top ++ flags)).state, (command_pass c (top ++ flags)).out)
        = spec_fold [] (c, []) (top ++ flags)) ∧
    (∀ (c : Int) (fuel : Nat) (chars : List Nat), 0 ≤ c → c ≤ 255 →
      main [flag 'L'] (some c) fuel chars [some [flag_arg 'c' ['F', 'F']]]
        = some (.returned { status := 0, out := [], writes := [c, 255] })) := by
  refine ⟨by decide, fun _ _ _ _ => rfl, ?_, ?_⟩
  · intro top flags c fuel chars hs
    exact ⟨main_first_line top flags c fuel chars hs,
      command_loop_spec (top ++ flags) [] _ rfl⟩
  · intro c fuel chars h0 h1
    rw [main_first_line [flag 'L'] [flag_arg 'c' ['F', 'F']] c fuel chars rfl]
    obtain ⟨n, rfl⟩ := byte_cases c h0 h1
    have hp : parse_bits HEX ['F', 'F'] = 255 := by decide
    have h2 : (command_pass (n.val : Int) ([flag 'L'] ++ [flag_arg 'c' ['F', 'F']])).state
        = Int.lor (n.val : Int) (parse_bits HEX ['F', 'F']) := rfl
    have h3 : (command_pass (n.val : Int) ([flag 'L'] ++ [flag_arg 'c' ['F', 'F']])).out
        = [] := rfl
    have h4 : (command_pass (n.val : Int) [flag 'L']).state = (n.val : Int) := rfl
    have h5 : to_uint8 (n.val : Int) = (n.val : Int) := by
      unfold to_uint8
      omega
    rw [h2, h3, h4, hp, lor_255_fin n, h5]
    rfl

/-- C18, at the failing input. The format is not pinned in the line stream: the
`getopt` loop of a line calls `switch_format`, so after `relay -L` (HEX at entry, pins
0x00) the flag `-D` of the line `-D -s 10` makes DEC the format of the operand that
follows it, and the state written is 10 where HEX gives 0x10 = 16.  In the char stream
the format is pinned: no step changes it. -/
theorem format_not_pinned_in_line_stream :
    main [flag 'L'] (some 0) 0 [] [some [flag 'D', flag_arg 's' ['1', '0']]]
      = some (.returned { status := 0, out := [], writes := [0, 10] }) ∧
    (first_line_step
      { ctx := { state := 0, format := HEX, operation := SET, out := [] }, writes := [0] }
      (some [flag 'D', flag_arg 's' ['1', '0']])).ctx
      = { state := 10, format := DEC, operation := SET, out := [] } ∧
    do_input 0 SET HEX ['1', '0'] = 16 ∧
    (∀ (m : machine) (c : Nat), (char_step m c).ctx.format = m.ctx.format) ∧
    (∀ (n : Nat) (chars : List Nat) (m : machine),
      (char_stream_iterate n chars m).ctx.format = m.ctx.format) := by
  have hstep : ∀ (m : machine) (c : Nat), (char_step m c).ctx.format = m.ctx.format := by
    intro m c
    unfold char_step
    split <;> rfl
  refine ⟨by decide, by decide, by decide, hstep, ?_⟩
  intro n
  induction n with
  | zero => intro chars m; rfl
  | succ k ih =>
    intro chars m
    unfold char_stream_iterate
    rw [ih, hstep]

/-! ## End of input in the char stream -/

/-- At end of input `getchar` gives `EOF`, which `uint8_t c` holds as 255: the step
takes it for an operand and writes to the device, in every format. -/
theorem char_step_at_eof (m : machine) :
    (getchar_uint8 []).1 = 255 ∧
    (char_step m (getchar_uint8 []).1).writes
      = m.writes ++ [to_uint8 (char_step m (getchar_uint8 []).1).ctx.state] := by
  refine ⟨rfl, ?_⟩
  unfold char_step
  rw [if_pos (Or.inr (by decide))]

/-- C19, at the failing input. The char stream loop does not end at end of input: its
condition `input == CHAR` never changes and its body has no exit, so for every input
and every number of iterations the loop is still running and `main` with `-C` does
not return; once standard input is exhausted every iteration reads `EOF` as the byte
255 and writes to the device, `n` more writes after `n` more iterations.  The line
stream loop does leave at end of input: on empty standard input `main` with `-L`
returns 0. -/
theorem char_stream_never_ends :
    (∀ (fuel : Nat) (chars : List Nat) (m : machine),
      char_stream_loop CHAR fuel chars m = none) ∧
    (∀ (fuel : Nat) (chars : List Nat) (lines : List (Option (List parsed_flag))) (c : Int),
      main [flag 'C'] (some c) fuel chars lines = none) ∧
    (∀ (n : Nat) (m : machine),
      (char_stream_iterate n [] m).writes.length = m.writes.length + n) ∧
    (char_stream_iterate 3 []
      { ctx := { state := 0, format := HEX, operation := SET, out := [] },
        writes := [] }).writes = [0, 0, 0] ∧
    main [flag 'L'] (some 0) 0 [] []
      = some (.returned { status := 0, out := [], writes := [0] }) := by
  have hloop : ∀ (fuel : Nat) (chars : List Nat) (m : machine),
      char_stream_loop CHAR fuel chars m = none := by
    intro fuel
    induction fuel with
    | zero => intro chars m; rfl
    | succ k ih =>
      intro chars m
      unfold char_stream_loop
      rw [if_pos rfl]
      exact ih _ _
  refine ⟨hloop, ?_, ?_, by decide, by decide⟩
  · intro fuel chars lines c
    have hs : sanity_pass [flag 'C'] = .ok CHAR := rfl
    unfold main
    rw [hs]
    simp only [if_pos, hloop]
  · intro n
    induction n with
    | zero => intro m; rfl
    | succ k ih =>
      intro m
      unfold char_stream_iterate
      have hnil : (getchar_uint8 []).2 = [] := rfl
      rw [hnil, ih, (char_step_at_eof m).2, List.length_append, List.length_singleton]
      omega

/-! ## Truncation to a byte -/

/-- Bit `i` of `(uint8_t)x` is bit `i` of `x` for `i < 8`, and 0 above. -/
theorem to_uint8_testBit (x : Int) (i : Nat) :
    Nat.testBit (to_uint8 x).toNat i = (decide (i < 8) && Int.testBit x i) := by
  unfold to_uint8
  cases x with
  | ofNat n =>
    have h : ((Int.ofNat n) % 256).toNat = n % 2 ^ 8 := by
      simp only [Int.ofNat_eq_coe]
      omega
    rw [h, Nat.testBit_mod_two_pow]
    rfl
  | negSucc n =>
    have h : ((Int.negSucc n) % 256).toNat = 2 ^ 8 - (n % 2 ^ 8 + 1) := by
      rw [Int.negSucc_eq]
      omega
    rw [h, Nat.testBit_two_pow_sub_succ (Nat.mod_lt _ (by decide)), Nat.testBit_mod_two_pow]
    show _ = (decide (i < 8) && !Nat.testBit n i)
    cases decide (i < 8) <;> simp

/-- The value `(uint8_t)x` is a byte. -/
theorem to_uint8_range (x : Int) : 0 ≤ to_uint8 x ∧ to_uint8 x < 256 := by
  unfold to_uint8
  omega

/-- Bit `i` of the 8-bit complement `255 - b` of a byte. -/
theorem byte_not_testBit (b i : Nat) (hb : b < 256) :
    Nat.testBit (255 - b) i = (decide (i < 8) && !Nat.testBit b i) := by
  have h : 255 - b = 2 ^ 8 - (b + 1) := by omega
  rw [h, Nat.testBit_two_pow_sub_succ (by omega)]

/-- Truncation commutes with each bitwise operator of `do_input`, on all of `int`. -/
theorem to_uint8_ops (a b : Int) :
    (to_uint8 (Int.lor a b)).toNat = (to_uint8 a).toNat ||| (to_uint8 b).toNat ∧
    (to_uint8 (Int.land a (Int.lnot b))).toNat
      = (to_uint8 a).toNat &&& (255 - (to_uint8 b).toNat) ∧
    (to_uint8 (Int.xor a b)).toNat = (to_uint8 a).toNat ^^^ (to_uint8 b).toNat := by
  have hb : (to_uint8 b).toNat < 256 := by
    have := to_uint8_range b
    omega
  refine ⟨?_, ?_, ?_⟩
  · apply Nat.eq_of_testBit_eq
    intro i
    rw [Nat.testBit_or, to_uint8_testBit, to_uint8_testBit, to_uint8_testBit, Int.testBit_lor]
    cases decide (i < 8) <;> simp
  · apply Nat.eq_of_testBit_eq
    intro i
    rw [Nat.testBit_and, byte_not_testBit _ _ hb, to_uint8_testBit, to_uint8_testBit,
      to_uint8_testBit, Int.testBit_land, Int.testBit_lnot]
    cases decide (i < 8) <;> simp
  · apply Nat.eq_of_testBit_eq
    intro i
    rw [Nat.testBit_xor, to_uint8_testBit, to_uint8_testBit, to_uint8_testBit,
      Int.testBit_lxor]
    cases decide (i < 8) <;> simp

/-- C20. Truncation commutes with the operations: for every `int` state, every operand
text, whatever `int` its mask `pins` is (above 255 and negative included), and every
operation, the byte `(uint8_t)state'` written to the device for the result `state'`
of `do_input` is the 8-bit operation (OR, AND NOT, assignment, XOR) applied to the
bytes `(uint8_t)state` and `(uint8_t)pins`. -/
theorem write_byte_commutes (state : Int) (op : operation_type) (f : format_type)
    (s : List Char) :
    to_uint8 (do_input state op f s)
      = ((spec_byte_op op (to_uint8 state).toNat (to_uint8 (parse_bits f s)).toNat : Nat) : Int) ∧
    (write_state { ctx := { state := do_input state op f s, format := f, operation := op,
                            out := [] }, writes := [] }).writes
      = [((spec_byte_op op (to_uint8 state).toNat (to_uint8 (parse_bits f s)).toNat : Nat) : Int)] ∧
    to_uint8 (do_input 5 CLOSE HEX ['1', '0', '0']) = 5 ∧
    to_uint8 (do_input 5 TOGGLE DEC ['-', '1']) = 250 := by
  have hnat : ∀ x : Int, to_uint8 x = (((to_uint8 x).toNat : Nat) : Int) := by
    intro x
    have := to_uint8_range x
    omega
  have hmain : to_uint8 (do_input state op f s)
      = ((spec_byte_op op (to_uint8 state).toNat (to_uint8 (parse_bits f s)).toNat : Nat) : Int) := by
    have h := to_uint8_ops state (parse_bits f s)
    rw [hnat (do_input state op f s)]
    congr 1
    cases op with
    | SET => rfl
    | CLOSE => exact h.1
    | OPEN => exact h.2.1
    | TOGGLE => exact h.2.2
  refine ⟨hmain, ?_, ?_, ?_⟩
  · show [to_uint8 (do_input state op f s)] = _
    rw [hmain]
  · have h := (to_uint8_ops 5 (parse_bits HEX ['1', '0', '0'])).1
    have hp : parse_bits HEX ['1', '0', '0'] = 256 := by decide
    rw [hnat (do_input 5 CLOSE HEX ['1', '0', '0'])]
    show (((to_uint8 (Int.lor 5 (parse_bits HEX ['1', '0', '0']))).toNat : Nat) : Int) = 5
    rw [h, hp]
    decide
  · have h := (to_uint8_ops 5 (parse_bits DEC ['-', '1'])).2.2
    have hp : parse_bits DEC ['-', '1'] = -1 := by decide
    rw [hnat (do_input 5 TOGGLE DEC ['-', '1'])]
    show (((to_uint8 (Int.xor 5 (parse_bits DEC ['-', '1']))).toNat : Nat) : Int) = 250
    rw [h, hp]
    decide

end Relay
